import Mathlib

/-!
Verification of the slice-ordering and windowing core of the DICOM viewer.

The development shallowly embeds the two core components of the repository
(`dicom_viewer/states/dicom_state.py`, duplicated in
`dicom_viewer_reflex/states/dicom_state.py`):

* the slice indexer: `_compute_slice_position`, `_dicom_sort_key` and the
  sort step of `scan_directory`;
* the window renderer: `_process_image` and the window-parameter and
  slice-navigation event handlers.

Modelling conventions:

* Python floats are modelled as `ℚ` (all the arithmetic in the source is
  exact on the inputs of interest: sums, differences, products, divisions);
  the `float("inf")` sentinel used by the sort key is the extra point of
  `QInf`.
* Python strings are modelled as `List Char` (a Python `str` is a sequence
  of code points compared lexicographically, exactly the order of
  `charsCmp` below).  `str.lower` is modelled on the ASCII range by
  `asciiLower`.
* Header values are modelled after parsing: a field that is absent, or
  whose `float(...)` conversion raises, is `none`.
* `numpy` arrays are a flat buffer together with a shape; exceptions are
  `Except Unit`; the PNG encoder (external `PIL` collaborator) is an
  abstract function parameter.
-/

namespace DicomViewer

/-- Three-way comparison induced by the order of a linear order.
This is Python's comparison of two floats or two code points. -/
def cmpOfLt {β : Type} [LinearOrder β] (a b : β) : Ordering :=
  if a < b then .lt else if b < a then .gt else .eq

theorem cmpOfLt_eq_lt {β : Type} [LinearOrder β] {a b : β} :
    cmpOfLt a b = .lt ↔ a < b := by
  unfold cmpOfLt
  rcases lt_trichotomy a b with h | h | h
  · simp [h]
  · simp [h, lt_irrefl]
  · simp [h, lt_asymm h]

theorem cmpOfLt_eq_eq {β : Type} [LinearOrder β] {a b : β} :
    cmpOfLt a b = .eq ↔ a = b := by
  unfold cmpOfLt
  rcases lt_trichotomy a b with h | h | h
  · simp [h, ne_of_lt h]
  · simp [h, lt_irrefl]
  · simp [h, lt_asymm h, (ne_of_lt h).symm]

theorem cmpOfLt_ne_gt {β : Type} [LinearOrder β] {a b : β} :
    cmpOfLt a b ≠ .gt ↔ a ≤ b := by
  unfold cmpOfLt
  rcases lt_trichotomy a b with h | h | h
  · simp [h, le_of_lt h]
  · simp [h, lt_irrefl]
  · simp [h, lt_asymm h, not_le.2 h]

theorem cmpOfLt_swap {β : Type} [LinearOrder β] (a b : β) :
    (cmpOfLt a b).swap = cmpOfLt b a := by
  unfold cmpOfLt
  rcases lt_trichotomy a b with h | h | h
  · simp [h, lt_asymm h, Ordering.swap]
  · simp [h, lt_irrefl, Ordering.swap]
  · simp [h, lt_asymm h, Ordering.swap]

instance {β : Type} [LinearOrder β] :
    Batteries.TransCmp (cmpOfLt : β → β → Ordering) where
  symm := cmpOfLt_swap
  le_trans h₁ h₂ :=
    cmpOfLt_ne_gt.2 (le_trans (cmpOfLt_ne_gt.1 h₁) (cmpOfLt_ne_gt.1 h₂))

/-- A rational number or the `float("inf")` sentinel used by
`_dicom_sort_key` for missing position and instance data. -/
inductive QInf where
  | fin : ℚ → QInf
  | inf : QInf
deriving DecidableEq

/-- Python comparison of two values that are each a float or `float("inf")`:
`inf` is greater than every finite value and equal to itself. -/
def qcmp : QInf → QInf → Ordering
  | .fin a, .fin b => cmpOfLt a b
  | .fin _, .inf => .lt
  | .inf, .fin _ => .gt
  | .inf, .inf => .eq

instance : Batteries.OrientedCmp qcmp where
  symm a b := by
    cases a <;> cases b
    · exact cmpOfLt_swap _ _
    · rfl
    · rfl
    · rfl

instance : Batteries.TransCmp qcmp where
  le_trans {x y z} h₁ h₂ := by
    cases x <;> cases y <;> cases z <;> simp_all [qcmp, cmpOfLt_ne_gt]
    exact le_trans h₁ h₂

/-- Lexicographic comparison of two code-point sequences: Python's
comparison of two `str` values. -/
def charsCmp : List Char → List Char → Ordering
  | [], [] => .eq
  | [], _ :: _ => .lt
  | _ :: _, [] => .gt
  | a :: as, b :: bs => (cmpOfLt a b).then (charsCmp as bs)

theorem charsCmp_swap : ∀ a b : List Char, (charsCmp a b).swap = charsCmp b a
  | [], [] => rfl
  | [], _ :: _ => rfl
  | _ :: _, [] => rfl
  | a :: as, b :: bs => by
    simp only [charsCmp, Ordering.swap_then, cmpOfLt_swap, charsCmp_swap as bs]

instance : Batteries.OrientedCmp charsCmp where
  symm := charsCmp_swap

theorem charsCmp_nil_ne_gt (c : List Char) : charsCmp [] c ≠ .gt := by
  cases c <;> simp [charsCmp]

theorem charsCmp_le_trans :
    ∀ {a b c : List Char},
      charsCmp a b ≠ .gt → charsCmp b c ≠ .gt → charsCmp a c ≠ .gt
  | [], _, c, _, _ => charsCmp_nil_ne_gt c
  | _ :: _, [], _, h₁, _ => absurd rfl h₁
  | _ :: _, _ :: _, [], _, h₂ => absurd rfl h₂
  | a :: as, b :: bs, c :: cs, h₁, h₂ => by
    simp only [charsCmp, ne_eq, Ordering.then_eq_gt, not_or, not_and] at h₁ h₂ ⊢
    have hab : a ≤ b := cmpOfLt_ne_gt.1 h₁.1
    have hbc : b ≤ c := cmpOfLt_ne_gt.1 h₂.1
    refine ⟨cmpOfLt_ne_gt.2 (le_trans hab hbc), fun e₁ => ?_⟩
    have hac : a = c := cmpOfLt_eq_eq.1 e₁
    have hab2 : a = b := le_antisymm hab (hac ▸ hbc)
    exact charsCmp_le_trans (h₁.2 (cmpOfLt_eq_eq.2 hab2))
      (h₂.2 (cmpOfLt_eq_eq.2 (hab2 ▸ hac)))

instance : Batteries.TransCmp charsCmp where
  le_trans := charsCmp_le_trans

/-- Comparison pulled back along a projection. -/
def cmpBy {α β : Type} (c : β → β → Ordering) (f : α → β) (a b : α) :
    Ordering :=
  c (f a) (f b)

instance {α β : Type} (c : β → β → Ordering) (f : α → β)
    [Batteries.OrientedCmp c] : Batteries.OrientedCmp (cmpBy c f) where
  symm a b := Batteries.OrientedCmp.symm (f a) (f b)

instance {α β : Type} (c : β → β → Ordering) (f : α → β)
    [Batteries.TransCmp c] : Batteries.TransCmp (cmpBy c f) where
  le_trans {x y z} h₁ h₂ :=
    @Batteries.TransCmp.le_trans β c _ (f x) (f y) (f z) h₁ h₂

/-- Parsed header fields of one candidate file, as read by
`_compute_slice_position` and `_dicom_sort_key` via `ds.get`.  A field is
`none` when the tag is absent; for `sliceLocation` and `instanceNumber`
it is also `none` when `float(...)` on the raw value raises (the code
maps both cases to the same fallback). -/
structure DataSet where
  seriesUID : Option (List Char)
  imagePositionPatient : Option (List ℚ)
  imageOrientationPatient : Option (List ℚ)
  sliceLocation : Option ℚ
  instanceNumber : Option ℚ
deriving DecidableEq

/-- First three components of a float list, as `iop[:3]`, `iop[3:6]` and
`pos[:3]` produce them (the callers guard the needed lengths). -/
def vec3 (l : List ℚ) : ℚ × ℚ × ℚ :=
  (l.getD 0 0, l.getD 1 0, l.getD 2 0)

/-- `np.cross` on two 3-vectors. -/
def cross3 (u v : ℚ × ℚ × ℚ) : ℚ × ℚ × ℚ :=
  (u.2.1 * v.2.2 - u.2.2 * v.2.1,
   u.2.2 * v.1 - u.1 * v.2.2,
   u.1 * v.2.1 - u.2.1 * v.1)

/-- `np.dot` on two 3-vectors. -/
def dot3 (u v : ℚ × ℚ × ℚ) : ℚ :=
  u.1 * v.1 + u.2.1 * v.2.1 + u.2.2 * v.2.2

/-- Squared Euclidean norm.  The source tests `np.linalg.norm(normal) > 0`;
over the rationals this is equivalent to `0 < normSq normal`, avoiding the
square root. -/
def normSq (u : ℚ × ℚ × ℚ) : ℚ := dot3 u u

/-- The two trailing fallbacks of `_compute_slice_position`: third
component of `ImagePositionPatient` when it has at least 3 entries, else
`SliceLocation`, else `None`. -/
def positionFallback (ds : DataSet) : Option ℚ :=
  match ds.imagePositionPatient with
  | some pos => if 3 ≤ pos.length then some (pos.getD 2 0) else ds.sliceLocation
  | none => ds.sliceLocation

/-- `_compute_slice_position`: project the position onto the slice normal
(cross product of the row and column orientation cosines) when position
and orientation are both usable and the normal is nonzero; otherwise fall
back to raw Z, then `SliceLocation`, then `None`. -/
def compute_slice_position (ds : DataSet) : Option ℚ :=
  match ds.imagePositionPatient, ds.imageOrientationPatient with
  | some pos, some iop =>
    if 6 ≤ iop.length ∧ 3 ≤ pos.length then
      let row := vec3 (iop.take 3)
      let col := vec3 (iop.drop 3)
      let normal := cross3 row col
      if 0 < normSq normal then some (dot3 normal (vec3 pos))
      else positionFallback ds
    else positionFallback ds
  | _, _ => positionFallback ds

/-- One record of the scan: the parsed header plus the file name
(`file_path.name`). -/
structure SliceHeaderRecord where
  ds : DataSet
  fileName : List Char
deriving DecidableEq

/-- `str.lower` on one code point, for the ASCII range used by file
names. -/
def asciiLower (c : Char) : Char :=
  if 'A' ≤ c ∧ c ≤ 'Z' then Char.ofNat (c.toNat + 32) else c

/-- The tuple returned by `_dicom_sort_key`. -/
structure SliceOrderKey where
  seriesUID : List Char
  primaryPosition : QInf
  secondaryPosition : QInf
  lowercaseFileName : List Char
deriving DecidableEq

/-- `_dicom_sort_key`: series UID (empty string when absent), primary
position (computed position, else instance number, else `inf`), secondary
position (instance number, else `inf`), lowercased file name. -/
def dicom_sort_key (r : SliceHeaderRecord) : SliceOrderKey :=
  let series_uid := r.ds.seriesUID.getD []
  let position := compute_slice_position r.ds
  let instance_val := r.ds.instanceNumber
  let primary : QInf :=
    match position with
    | some p => .fin p
    | none =>
      match instance_val with
      | some i => .fin i
      | none => .inf
  let secondary : QInf :=
    match instance_val with
    | some i => .fin i
    | none => .inf
  ⟨series_uid, primary, secondary, r.fileName.map asciiLower⟩

/-- Python's lexicographic comparison of two `_dicom_sort_key` tuples,
as used by `list.sort(key=...)`. -/
def keyCmp : SliceOrderKey → SliceOrderKey → Ordering :=
  compareLex (cmpBy charsCmp SliceOrderKey.seriesUID)
    (compareLex (cmpBy qcmp SliceOrderKey.primaryPosition)
      (compareLex (cmpBy qcmp SliceOrderKey.secondaryPosition)
        (cmpBy charsCmp SliceOrderKey.lowercaseFileName)))

instance : Batteries.TransCmp keyCmp :=
  inferInstanceAs (Batteries.TransCmp
    (compareLex (cmpBy charsCmp SliceOrderKey.seriesUID)
      (compareLex (cmpBy qcmp SliceOrderKey.primaryPosition)
        (compareLex (cmpBy qcmp SliceOrderKey.secondaryPosition)
          (cmpBy charsCmp SliceOrderKey.lowercaseFileName)))))

/-- Record comparison: compare the sort keys. -/
def recCmp : SliceHeaderRecord → SliceHeaderRecord → Ordering :=
  cmpBy keyCmp dicom_sort_key

instance : Batteries.TransCmp recCmp :=
  inferInstanceAs (Batteries.TransCmp (cmpBy keyCmp dicom_sort_key))

/-- The (non-strict) record order the scan sorts by. -/
def recLe (a b : SliceHeaderRecord) : Prop := recCmp a b ≠ .gt

instance : DecidableRel recLe := fun a b =>
  inferInstanceAs (Decidable (recCmp a b ≠ .gt))

instance : IsTrans SliceHeaderRecord recLe :=
  ⟨fun a b c h₁ h₂ => @Batteries.TransCmp.le_trans _ recCmp _ a b c h₁ h₂⟩

instance : IsTotal SliceHeaderRecord recLe where
  total a b := by
    by_cases h : recCmp a b = .gt
    · right
      have hlt : recCmp b a = .lt := Batteries.OrientedCmp.cmp_eq_gt.1 h
      simp [recLe, hlt]
    · left; exact h

/-- A candidate file of the directory scan: its name and the result of
the attempted header parse (`None` when `pydicom.dcmread` raised, in which
case `scan_directory` logs and skips the file). -/
structure RawFile where
  fileName : List Char
  header : Option DataSet
deriving DecidableEq

/-- The records of the files whose headers parsed, in directory order. -/
def validRecords (files : List RawFile) : List SliceHeaderRecord :=
  files.filterMap fun f => f.header.map fun d => ⟨d, f.fileName⟩

/-- The sort step of `scan_directory`: a stable ascending sort of the
records by their `_dicom_sort_key` (`sortable_dicoms.sort(key=...)`,
Python's stable sort, modelled by stable insertion sort). -/
def computeOrder (records : List SliceHeaderRecord) : List SliceHeaderRecord :=
  records.insertionSort recLe

/-- The full pure core of `scan_directory`: keep the files whose headers
parsed, then sort them by key. -/
def scanOrder (files : List RawFile) : List SliceHeaderRecord :=
  computeOrder (validRecords files)

end DicomViewer

namespace DicomViewer

/-- `np.clip(x, lo, hi)`: `np.minimum(hi, np.maximum(x, lo))` on one
sample. -/
def clipQ (x lo hi : ℚ) : ℚ := min (max x lo) hi

/-- `astype(np.uint8)` on one float sample: the C cast truncates toward
zero and keeps the low 8 bits. -/
def toUint8 (x : ℚ) : ℤ := (if 0 ≤ x then ⌊x⌋ else -⌊-x⌋) % 256

/-- The grayscale branch of `_process_image` on one sample, before the
8-bit cast: rescale (`hu = sample * slope + intercept`), window bounds
`center ± width / 2`, clip, then the linear map to `[0, 255]` unless the
bounds coincide, in which case the array is multiplied by zero.  The
source tests `max_val != min_val` once for the whole array; the test does
not depend on the sample, so it commutes with the per-sample map. -/
def grayPixel (slope intercept center width s : ℚ) : ℚ :=
  let hu := s * slope + intercept
  let min_val := center - width / 2
  let max_val := center + width / 2
  let windowed := clipQ hu min_val max_val
  if max_val ≠ min_val then (windowed - min_val) / (max_val - min_val) * 255
  else windowed * 0

/-- One rendered grayscale sample: windowed value cast to `uint8`. -/
def grayValue8 (slope intercept center width s : ℚ) : ℤ :=
  toUint8 (grayPixel slope intercept center width s)

/-- The grayscale raster: the per-sample pipeline over the flat buffer. -/
def grayU8 (slope intercept center width : ℚ) (data : List ℚ) : List ℤ :=
  data.map (grayValue8 slope intercept center width)

/-- The linear map `[lo, hi] → [0, 255]` as the spec words it
("linearly map `[lo,hi] → [0,255]`"); compared against the grayscale
branch of the source in the claim-C1 theorem. -/
def linMap255 (v lo hi : ℚ) : ℚ := (v - lo) / (hi - lo) * 255

/-- A `numpy` array: a shape and the flat buffer of samples. -/
structure NDArr where
  shape : List ℕ
  data : List ℚ
deriving DecidableEq

/-- An 8-bit raster with a `PIL` mode tag, the payload handed to the PNG
encoder. -/
structure U8Img where
  shape : List ℕ
  data : List ℤ
  mode : List Char
deriving DecidableEq

/-- `np.min`: `none` on an empty buffer (where `numpy` raises). -/
def npMin : List ℚ → Option ℚ
  | [] => none
  | x :: xs => some (xs.foldl min x)

/-- `np.max`: `none` on an empty buffer (where `numpy` raises). -/
def npMax : List ℚ → Option ℚ
  | [] => none
  | x :: xs => some (xs.foldl max x)

/-- `pixel_data.reshape((-1,) + pixel_data.shape[-2:])[0]`: keep the last
two axes and take the first frame.  Errors (as `numpy` does) when the
trailing plane is empty or does not divide the buffer, or when there is
no frame to take. -/
def reshapeFirst (a : NDArr) : Except Unit NDArr :=
  let h := a.shape.getD (a.shape.length - 2) 0
  let w := a.shape.getD (a.shape.length - 1) 0
  if 0 < h * w ∧ (h * w) ∣ a.data.length ∧ 0 < a.data.length then
    .ok ⟨[h, w], a.data.take (h * w)⟩
  else .error ()

/-- `pixel_data[0]`: first subarray along the leading axis; errors on a
scalar or an empty leading axis. -/
def firstIndex (a : NDArr) : Except Unit NDArr :=
  match a.shape with
  | [] => .error ()
  | n :: rest =>
    if 0 < n ∧ a.data.length = n * rest.prod then .ok ⟨rest, a.data.take rest.prod⟩
    else .error ()

/-- The multi-frame collapse of `_process_image`: try the reshape, and on
its failure fall back to `pixel_data[0]` (whose own failure propagates to
the enclosing handler). -/
def collapse (a : NDArr) : Except Unit NDArr :=
  match reshapeFirst a with
  | .ok b => .ok b
  | .error _ => firstIndex a

/-- `is_rgb = pixel_data.ndim == 3 and pixel_data.shape[-1] in (3, 4)`. -/
def is_rgb (shape : List ℕ) : Bool :=
  shape.length == 3 && (shape.getLast? == some 3 || shape.getLast? == some 4)

/-- The `PIL` mode for a 3- or 4-channel raster. -/
def rgbMode (c : ℕ) : List Char :=
  if c = 4 then ['R', 'G', 'B', 'A'] else ['R', 'G', 'B']

/-- The color branch of `_process_image`: clip the samples to their own
observed `[min, max]` (which leaves every sample, and hence the observed
extremes, unchanged), rescale into `[0, 255]` by that range unless it is
degenerate, cast to `uint8`, and build the RGB/RGBA image
(`Image.fromarray` needs a well-shaped nonempty `(h, w, c)` buffer). -/
def colorProcess (a : NDArr) : Except Unit U8Img :=
  match npMin a.data, npMax a.data with
  | some mn, some mx =>
    let clipped := a.data.map fun v => clipQ v mn mx
    let scaled :=
      if mx ≠ mn then clipped.map fun v => (v - mn) / (mx - mn) * 255
      else clipped
    let u8 := scaled.map toUint8
    match a.shape with
    | [h, w, c] =>
      if (c = 3 ∨ c = 4) ∧ a.data.length = h * w * c ∧ 0 < h ∧ 0 < w then
        .ok ⟨[h, w, c], u8, rgbMode c⟩
      else .error ()
    | _ => .error ()
  | _, _ => .error ()

/-- The grayscale branch of `_process_image` on the whole buffer followed
by `Image.fromarray` (which needs a well-shaped nonempty 2-D buffer). -/
def grayProcess (a : NDArr) (slope intercept center width : ℚ) :
    Except Unit U8Img :=
  let u8 := grayU8 slope intercept center width a.data
  match a.shape with
  | [h, w] =>
    if a.data.length = h * w ∧ 0 < h ∧ 0 < w then .ok ⟨[h, w], u8, ['L']⟩
    else .error ()
  | _ => .error ()

/-- Steps 1-3 of `_process_image` under its `try`: detect color, collapse
a non-color stack of 3 or more axes to its first 2-D slice, then run the
color or grayscale branch. -/
def processCore (a : NDArr) (slope intercept center width : ℚ) :
    Except Unit U8Img := do
  let b ← if 3 ≤ a.shape.length ∧ ¬ is_rgb a.shape then collapse a else .ok a
  if is_rgb a.shape then colorProcess b
  else grayProcess b slope intercept center width

/-- The base64 alphabet of RFC 4648, as used by `base64.b64encode`. -/
def b64Table : List Char :=
  "ABCDEFGHIJKLMNOPQRSTUVWXYZabcdefghijklmnopqrstuvwxyz0123456789+/".data

/-- Standard base64 of a byte list, with `=` padding
(`base64.b64encode(...).decode()`). -/
def b64Chars : List ℕ → List Char
  | [] => []
  | [a] =>
    [b64Table.getD (a / 4) 'A', b64Table.getD (a % 4 * 16) 'A', '=', '=']
  | [a, b] =>
    [b64Table.getD (a / 4) 'A', b64Table.getD (a % 4 * 16 + b / 16) 'A',
     b64Table.getD (b % 16 * 4) 'A', '=']
  | a :: b :: c :: rest =>
    b64Table.getD (a / 4) 'A' :: b64Table.getD (a % 4 * 16 + b / 16) 'A' ::
      b64Table.getD (b % 16 * 4 + c / 64) 'A' :: b64Table.getD (c % 64) 'A' ::
      b64Chars rest

/-- `base64.b64encode(buffer.getvalue()).decode()`. -/
def base64Encode (bytes : List ℕ) : String := ⟨b64Chars bytes⟩

/-- The data-URI marker prepended to the encoded PNG. -/
def mediaTypeMarker : String := "data:image/png;base64,"

/-- `_process_image` on a cached pixel array: the `try` body produces the
`data:image/png;base64,`-prefixed string from the PNG bytes of the 8-bit
raster (`png` is the external `PIL` encoder, abstract here); any failure
is caught and mapped to the `/placeholder.svg` sentinel. -/
def renderImage (png : U8Img → List ℕ) (a : NDArr)
    (slope intercept center width : ℚ) : String :=
  match processCore a slope intercept center width with
  | .ok img => mediaTypeMarker ++ base64Encode (png img)
  | .error _ => "/placeholder.svg"

/-- The windowing-relevant fields of `DicomViewerState`. -/
structure WinState where
  window_width : ℚ
  window_center : ℚ
  selected_preset : String
  current_image_base64 : String
  cached_pixel_array : Option NDArr
  cached_rescale_slope : ℚ
  cached_rescale_intercept : ℚ

/-- `_process_image` as a state transformer: recompute the displayed
image from the cached array and the current window parameters; do nothing
when no array is cached. -/
def process_image (png : U8Img → List ℕ) (st : WinState) : WinState :=
  match st.cached_pixel_array with
  | none => st
  | some a =>
    { st with current_image_base64 :=
        (renderImage png a st.cached_rescale_slope st.cached_rescale_intercept
          st.window_center st.window_width) }

/-- `update_window_width`: `float(value)` is evaluated before any
assignment, so a `ValueError` (modelled by `none`) reaches the handler's
`except` before the state is touched; on success the width is set, the
preset cleared, and the image reprocessed. -/
def update_window_width (png : U8Img → List ℕ) (st : WinState)
    (value : Option ℚ) : WinState :=
  match value with
  | some x => process_image png { st with window_width := x, selected_preset := "" }
  | none => st

/-- `update_window_center`, symmetric to `update_window_width`. -/
def update_window_center (png : U8Img → List ℕ) (st : WinState)
    (value : Option ℚ) : WinState :=
  match value with
  | some x => process_image png { st with window_center := x, selected_preset := "" }
  | none => st

/-- The slice-navigation fields of `DicomViewerState`. -/
structure NavState where
  dicom_files : List (List Char)
  current_index : ℤ

/-- `total_images`: length of the scanned file list. -/
def total_images (s : NavState) : ℤ := s.dicom_files.length

/-- `handle_file_selection`: adopt the index only when it is in range. -/
def handle_file_selection (s : NavState) (index : ℤ) : NavState :=
  if 0 ≤ index ∧ index < total_images s then { s with current_index := index }
  else s

/-- `next_image`: advance unless already at the last index. -/
def next_image (s : NavState) : NavState :=
  if s.current_index < total_images s - 1 then
    { s with current_index := s.current_index + 1 }
  else s

/-- `prev_image`: step back unless already at index 0. -/
def prev_image (s : NavState) : NavState :=
  if 0 < s.current_index then { s with current_index := s.current_index - 1 }
  else s

/-- `set_slice_index`: `int(float(value))` (parse failure modelled by
`none` is caught by the handler), adopted only when in range. -/
def set_slice_index (s : NavState) (value : Option ℤ) : NavState :=
  match value with
  | some v => if 0 ≤ v ∧ v < total_images s then { s with current_index := v } else s
  | none => s

/-- The bounds invariant of the current slice index. -/
def IndexInvariant (s : NavState) : Prop :=
  0 ≤ s.current_index ∧ (s.dicom_files ≠ [] → s.current_index < total_images s)

end DicomViewer
namespace DicomViewer

theorem charsCmp_refl (x : List Char) : charsCmp x x = .eq :=
  @Batteries.OrientedCmp.cmp_refl _ charsCmp x _

/-- Claim C2: the sort step of `scan_directory` returns exactly the
records whose headers parsed — a permutation of the valid inputs, sorted
ascending by the `_dicom_sort_key` order — and unparseable files are
absent without failing the scan; for three valid headers with instance
numbers 3, 1, 2 in one series and no position data plus one corrupt file,
the output is ordered by instance number 1, 2, 3 and omits the corrupt
file. -/
theorem computeOrder_returns_sorted_valid_records :
    (∀ files : List RawFile,
      (scanOrder files).Perm (validRecords files) ∧
      List.Sorted recLe (scanOrder files)) ∧
    scanOrder
        [⟨['f', '3', '.', 'd', 'c', 'm'], some ⟨some ['S'], none, none, none, some 3⟩⟩,
         ⟨['f', '1', '.', 'd', 'c', 'm'], some ⟨some ['S'], none, none, none, some 1⟩⟩,
         ⟨['b', 'a', 'd', '.', 'd', 'c', 'm'], none⟩,
         ⟨['f', '2', '.', 'd', 'c', 'm'], some ⟨some ['S'], none, none, none, some 2⟩⟩] =
      [⟨⟨some ['S'], none, none, none, some 1⟩, ['f', '1', '.', 'd', 'c', 'm']⟩,
       ⟨⟨some ['S'], none, none, none, some 2⟩, ['f', '2', '.', 'd', 'c', 'm']⟩,
       ⟨⟨some ['S'], none, none, none, some 3⟩, ['f', '3', '.', 'd', 'c', 'm']⟩] := by
  refine ⟨fun files => ⟨?_, ?_⟩, by decide⟩
  · exact List.perm_insertionSort recLe (validRecords files)
  · exact List.sorted_insertionSort recLe (validRecords files)

/-- Claim C8: ordering is deterministic — the record comparison is total
(every key component falls back to a comparable default), and two runs of
`computeOrder` on the same input produce identical outputs. -/
theorem computeOrder_deterministic :
    (∀ a b : SliceHeaderRecord, recLe a b ∨ recLe b a) ∧
    (∀ l₁ l₂ : List SliceHeaderRecord, l₁ = l₂ → computeOrder l₁ = computeOrder l₂) :=
  ⟨fun a b => IsTotal.total a b, fun _ _ h => h ▸ rfl⟩

/-- Witness for C8 at a concrete input. -/
theorem computeOrder_deterministic_witness :
    computeOrder [⟨⟨none, none, none, none, none⟩, ['a']⟩] =
      computeOrder [⟨⟨none, none, none, none, none⟩, ['a']⟩] :=
  computeOrder_deterministic.2 _ _ rfl

/-- Claim C3: rendering a grayscale buffer with window width 0 produces an
all-zero raster, for every sample, slope, intercept and center, with no
division by zero (the degenerate branch multiplies by zero instead). -/
theorem zero_width_flat (slope intercept center : ℚ) (a : NDArr)
    (img : U8Img) (hok : grayProcess a slope intercept center 0 = .ok img) :
    ∀ v ∈ img.data, v = 0 := by
  unfold grayProcess at hok
  dsimp only at hok
  split at hok
  · split at hok
    · rw [Except.ok.injEq] at hok
      subst hok
      intro v hv
      obtain ⟨s, _, rfl⟩ := List.mem_map.1 hv
      norm_num [grayValue8, grayPixel, clipQ, toUint8]
    · cases hok
  · cases hok

/-- Witness for C3 at a concrete input. -/
theorem zero_width_flat_witness :
    grayProcess ⟨[1, 1], [5]⟩ 1 0 40 0 = .ok ⟨[1, 1], [0], ['L']⟩ ∧
    ∀ v ∈ (⟨[1, 1], [0], ['L']⟩ : U8Img).data, v = 0 := by
  have hok : grayProcess ⟨[1, 1], [5]⟩ 1 0 40 0 = .ok ⟨[1, 1], [0], ['L']⟩ := by
    norm_num [grayProcess, grayU8, grayValue8, grayPixel, clipQ, toUint8]
  exact ⟨hok, zero_width_flat 1 0 40 ⟨[1, 1], [5]⟩ ⟨[1, 1], [0], ['L']⟩ hok⟩

/-- Claim C7: rendering never raises across the component boundary — for
every buffer and window parameters it returns either the
`data:image/png;base64,`-prefixed encoding of the produced 8-bit raster
or the `/placeholder.svg` sentinel. -/
theorem render_never_raises (png : U8Img → List ℕ) (a : NDArr)
    (slope intercept center width : ℚ) :
    (∃ img, processCore a slope intercept center width = .ok img ∧
      renderImage png a slope intercept center width =
        mediaTypeMarker ++ base64Encode (png img)) ∨
    renderImage png a slope intercept center width = "/placeholder.svg" := by
  cases h : processCore a slope intercept center width with
  | ok img => exact .inl ⟨img, rfl, by simp [renderImage, h]⟩
  | error e => exact .inr (by simp [renderImage, h])

/-- Claim C9: on a window-parameter input that does not parse as a float,
`update_window_width` and `update_window_center` leave the whole state —
width, center, preset and rendered image — unchanged, and no exception
escapes the handler. -/
theorem window_update_atomic (png : U8Img → List ℕ) (st : WinState) :
    update_window_width png st none = st ∧
    update_window_center png st none = st ∧
    (update_window_width png st none).window_width = st.window_width ∧
    (update_window_width png st none).window_center = st.window_center ∧
    (update_window_width png st none).selected_preset = st.selected_preset ∧
    (update_window_width png st none).current_image_base64 =
      st.current_image_base64 ∧
    (update_window_center png st none).window_width = st.window_width ∧
    (update_window_center png st none).window_center = st.window_center ∧
    (update_window_center png st none).selected_preset = st.selected_preset ∧
    (update_window_center png st none).current_image_base64 =
      st.current_image_base64 :=
  ⟨rfl, rfl, rfl, rfl, rfl, rfl, rfl, rfl, rfl, rfl⟩

/-- Claim C10: every slice-navigation operation preserves the index bounds
invariant; out-of-range selections are ignored, `next_image` is a no-op at
the last index and `prev_image` at index 0. -/
theorem slice_index_bounds (s : NavState) (index w : ℤ) (value : Option ℤ)
    (h : IndexInvariant s) :
    IndexInvariant (handle_file_selection s index) ∧
    IndexInvariant (next_image s) ∧
    IndexInvariant (prev_image s) ∧
    IndexInvariant (set_slice_index s value) ∧
    (¬ (0 ≤ index ∧ index < total_images s) →
      handle_file_selection s index = s) ∧
    (¬ (0 ≤ w ∧ w < total_images s) → set_slice_index s (some w) = s) ∧
    (s.current_index = total_images s - 1 → next_image s = s) ∧
    (s.current_index = 0 → prev_image s = s) := by
  obtain ⟨files, idx⟩ := s
  obtain ⟨h₀, h₁⟩ := h
  simp only [IndexInvariant, total_images] at h₀ h₁
  refine ⟨?_, ?_, ?_, ?_, ?_, ?_, ?_, ?_⟩
  · simp only [handle_file_selection, IndexInvariant, total_images]
    split_ifs with hc
    · exact ⟨hc.1, fun _ => hc.2⟩
    · exact ⟨h₀, h₁⟩
  · simp only [next_image, IndexInvariant, total_images]
    split_ifs with hc
    · constructor
      · show (0 : ℤ) ≤ idx + 1
        omega
      · intro _
        show idx + 1 < (files.length : ℤ)
        omega
    · exact ⟨h₀, h₁⟩
  · simp only [prev_image, IndexInvariant, total_images]
    split_ifs with hc
    · constructor
      · show (0 : ℤ) ≤ idx - 1
        omega
      · intro hne
        have := h₁ hne
        show idx - 1 < (files.length : ℤ)
        omega
    · exact ⟨h₀, h₁⟩
  · cases value with
    | none => exact ⟨h₀, h₁⟩
    | some v =>
      simp only [set_slice_index, IndexInvariant, total_images]
      split_ifs with hc
      · exact ⟨hc.1, fun _ => hc.2⟩
      · exact ⟨h₀, h₁⟩
  · intro hn
    simp only [handle_file_selection, total_images] at hn ⊢
    rw [if_neg hn]
  · intro hn
    simp only [set_slice_index, total_images] at hn ⊢
    rw [if_neg hn]
  · intro he
    simp only [next_image, total_images] at he ⊢
    rw [if_neg (by omega)]
  · intro he
    simp only [prev_image, total_images] at he ⊢
    rw [if_neg (by omega)]

/-- Witness for C10 at a concrete state. -/
theorem slice_index_bounds_witness :
    IndexInvariant (⟨[['a']], 0⟩ : NavState) ∧
    (IndexInvariant (handle_file_selection ⟨[['a']], 0⟩ 5) ∧
      IndexInvariant (next_image ⟨[['a']], 0⟩) ∧
      IndexInvariant (prev_image ⟨[['a']], 0⟩) ∧
      IndexInvariant (set_slice_index ⟨[['a']], 0⟩ none) ∧
      (¬ (0 ≤ (5 : ℤ) ∧ (5 : ℤ) < total_images ⟨[['a']], 0⟩) →
        handle_file_selection ⟨[['a']], 0⟩ 5 = ⟨[['a']], 0⟩) ∧
      (¬ (0 ≤ (9 : ℤ) ∧ (9 : ℤ) < total_images ⟨[['a']], 0⟩) →
        set_slice_index ⟨[['a']], 0⟩ (some 9) = ⟨[['a']], 0⟩) ∧
      ((⟨[['a']], 0⟩ : NavState).current_index = total_images ⟨[['a']], 0⟩ - 1 →
        next_image ⟨[['a']], 0⟩ = ⟨[['a']], 0⟩) ∧
      ((⟨[['a']], 0⟩ : NavState).current_index = 0 →
        prev_image ⟨[['a']], 0⟩ = ⟨[['a']], 0⟩)) := by
  have hinv : IndexInvariant (⟨[['a']], 0⟩ : NavState) := by
    constructor
    · decide
    · intro _; decide
  exact ⟨hinv, slice_index_bounds ⟨[['a']], 0⟩ 5 9 none hinv⟩

end DicomViewer
namespace DicomViewer

/-- Claim C1: the grayscale rendered value is the clip of
`hu = sample * slope + intercept` to `[lo, hi]` linearly mapped to
`[0, 255]` (then cast to 8 bits); for `center = 40, width = 400` an input
with `hu = 40` renders as 127 or 128, `hu ≤ -160` renders as 0 and
`hu ≥ 240` renders as 255. -/
theorem grayscale_windowing (slope intercept center width s : ℚ) :
    (center - width / 2 ≠ center + width / 2 →
      grayValue8 slope intercept center width s =
        toUint8 (linMap255
          (clipQ (s * slope + intercept) (center - width / 2) (center + width / 2))
          (center - width / 2) (center + width / 2))) ∧
    (s * slope + intercept = 40 →
      grayValue8 slope intercept 40 400 s = 127 ∨
        grayValue8 slope intercept 40 400 s = 128) ∧
    (s * slope + intercept ≤ -160 → grayValue8 slope intercept 40 400 s = 0) ∧
    (240 ≤ s * slope + intercept → grayValue8 slope intercept 40 400 s = 255) := by
  refine ⟨?_, ?_, ?_, ?_⟩
  · intro h
    simp only [grayValue8, grayPixel, linMap255, if_pos (Ne.symm h)]
  · intro h
    left
    have hpix : grayPixel slope intercept 40 400 s = 255 / 2 := by
      simp only [grayPixel, clipQ, h]
      norm_num
    simp only [grayValue8, hpix, toUint8]
    norm_num
  · intro h
    have hpix : grayPixel slope intercept 40 400 s = 0 := by
      simp only [grayPixel, clipQ]
      rw [max_eq_right (by linarith), min_eq_left (by norm_num)]
      norm_num
    simp only [grayValue8, hpix, toUint8]
    norm_num
  · intro h
    have hpix : grayPixel slope intercept 40 400 s = 255 := by
      simp only [grayPixel, clipQ]
      rw [max_eq_left (by linarith), min_eq_right (by linarith)]
      norm_num
    simp only [grayValue8, hpix, toUint8]
    norm_num

/-- Witness for C1: all four parts at concrete inputs. -/
theorem grayscale_windowing_witness :
    (grayValue8 1 0 40 400 40 =
      toUint8 (linMap255 (clipQ (40 * 1 + 0) (40 - 400 / 2) (40 + 400 / 2))
        (40 - 400 / 2) (40 + 400 / 2))) ∧
    (grayValue8 1 0 40 400 40 = 127 ∨ grayValue8 1 0 40 400 40 = 128) ∧
    grayValue8 1 0 40 400 (-200) = 0 ∧
    grayValue8 1 0 40 400 300 = 255 :=
  ⟨(grayscale_windowing 1 0 40 400 40).1 (by norm_num),
   (grayscale_windowing 1 0 40 400 40).2.1 (by norm_num),
   (grayscale_windowing 1 0 40 400 (-200)).2.2.1 (by norm_num),
   (grayscale_windowing 1 0 40 400 300).2.2.2 (by norm_num)⟩

/-- Counterexample to C5 as stated: a record with no position, no
orientation and no slice location, but with numeric instance number 5,
gets primary position 5, not `+infinity`. -/
theorem primary_fallback_counterexample :
    compute_slice_position ⟨none, none, none, none, some 5⟩ = none ∧
    (dicom_sort_key
        ⟨⟨none, none, none, none, some 5⟩, ['x', '.', 'd', 'c', 'm']⟩).primaryPosition =
      .fin 5 ∧
    QInf.fin 5 ≠ QInf.inf := by
  refine ⟨rfl, rfl, by decide⟩

/-- Claim C5 (amended): when the position rules (a)-(c) all fail, the
primary position falls back to the numeric instance number when present;
it is `+infinity` only when the instance number is also missing. -/
theorem primary_fallback_amended (r : SliceHeaderRecord)
    (h : compute_slice_position r.ds = none) :
    (∀ i, r.ds.instanceNumber = some i →
      (dicom_sort_key r).primaryPosition = .fin i) ∧
    (r.ds.instanceNumber = none → (dicom_sort_key r).primaryPosition = .inf) := by
  constructor
  · intro i hi
    simp [dicom_sort_key, h, hi]
  · intro hi
    simp [dicom_sort_key, h, hi]

/-- Witness for the amended C5 at a concrete record. -/
theorem primary_fallback_amended_witness :
    compute_slice_position (⟨none, none, none, none, some 5⟩ : DataSet) = none ∧
    (⟨⟨none, none, none, none, some 5⟩, ['x']⟩ :
        SliceHeaderRecord).ds.instanceNumber = some 5 ∧
    (dicom_sort_key ⟨⟨none, none, none, none, some 5⟩, ['x']⟩).primaryPosition =
      .fin 5 :=
  ⟨rfl, rfl,
    (primary_fallback_amended ⟨⟨none, none, none, none, some 5⟩, ['x']⟩ rfl).1 5 rfl⟩

end DicomViewer
namespace DicomViewer

theorem foldl_min_eq_self {V : ℚ} :
    ∀ xs : List ℚ, (∀ y ∈ xs, y = V) → xs.foldl min V = V
  | [], _ => rfl
  | x :: xs, h => by
    have hx : x = V := h x (by simp)
    rw [List.foldl_cons, hx, min_self]
    exact foldl_min_eq_self xs fun y hy => h y (by simp [hy])

theorem foldl_max_eq_self {V : ℚ} :
    ∀ xs : List ℚ, (∀ y ∈ xs, y = V) → xs.foldl max V = V
  | [], _ => rfl
  | x :: xs, h => by
    have hx : x = V := h x (by simp)
    rw [List.foldl_cons, hx, max_self]
    exact foldl_max_eq_self xs fun y hy => h y (by simp [hy])

/-- Counterexample to C4 as stated: a uniform 1 x 1 x 3 color frame of
value 7 renders with every channel equal to 7, not 0 — the degenerate
branch outputs the raw clipped values unscaled (only the grayscale branch
multiplies by zero). -/
theorem color_degenerate_counterexample :
    colorProcess ⟨[1, 1, 3], [7, 7, 7]⟩ =
      .ok ⟨[1, 1, 3], [7, 7, 7], ['R', 'G', 'B']⟩ ∧ (7 : ℤ) ≠ 0 := by
  constructor
  · norm_num [colorProcess, npMin, npMax, clipQ, toUint8, rgbMode]
  · decide

/-- Claim C4 (amended): for a 3-channel frame whose samples all equal `V`,
the observed range is degenerate, the rescale is skipped, and every
channel of the rendered raster equals the raw clipped value `V` cast to
8 bits (not 0, unless `V` itself truncates to 0). -/
theorem color_degenerate_amended (a : NDArr) (V : ℚ) (img : U8Img)
    (hV : ∀ x ∈ a.data, x = V)
    (hok : colorProcess a = .ok img) :
    ∀ y ∈ img.data, y = toUint8 V := by
  cases hd : a.data with
  | nil =>
    unfold colorProcess at hok
    rw [hd] at hok
    simp [npMin, npMax] at hok
  | cons x xs =>
    have hx : x = V := hV x (hd ▸ by simp)
    have hxs : ∀ y ∈ xs, y = V := fun y hy => hV y (hd ▸ by simp [hy])
    have hmn : npMin a.data = some V := by
      rw [hd]
      simp only [npMin]
      rw [show xs.foldl min x = V from hx ▸ foldl_min_eq_self xs (hx ▸ hxs)]
    have hmx : npMax a.data = some V := by
      rw [hd]
      simp only [npMax]
      rw [show xs.foldl max x = V from hx ▸ foldl_max_eq_self xs (hx ▸ hxs)]
    unfold colorProcess at hok
    rw [hmn, hmx] at hok
    dsimp only at hok
    rw [if_neg (show ¬ (V ≠ V) from fun hne => hne rfl)] at hok
    split at hok
    · split at hok
      · rw [Except.ok.injEq] at hok
        subst hok
        intro y hy
        simp only at hy
        obtain ⟨w, hw, rfl⟩ := List.mem_map.1 hy
        obtain ⟨v, hv, rfl⟩ := List.mem_map.1 hw
        rw [hV v hv]
        simp [clipQ]
      · cases hok
    · cases hok

/-- Witness for the amended C4 at a concrete frame. -/
theorem color_degenerate_amended_witness :
    colorProcess ⟨[1, 1, 3], [9, 9, 9]⟩ =
      .ok ⟨[1, 1, 3], [9, 9, 9], ['R', 'G', 'B']⟩ ∧
    ∀ y ∈ (⟨[1, 1, 3], [9, 9, 9], ['R', 'G', 'B']⟩ : U8Img).data,
      y = toUint8 9 := by
  have hok : colorProcess ⟨[1, 1, 3], [9, 9, 9]⟩ =
      .ok ⟨[1, 1, 3], [9, 9, 9], ['R', 'G', 'B']⟩ := by
    norm_num [colorProcess, npMin, npMax, clipQ, toUint8, rgbMode]
  exact ⟨hok, color_degenerate_amended ⟨[1, 1, 3], [9, 9, 9]⟩ 9
    ⟨[1, 1, 3], [9, 9, 9], ['R', 'G', 'B']⟩ (by norm_num) hok⟩

theorem compute_slice_position_empty (ds : DataSet)
    (h1 : ds.imagePositionPatient = none) (h3 : ds.sliceLocation = none) :
    compute_slice_position ds = none := by
  cases hio : ds.imageOrientationPatient <;>
    simp [compute_slice_position, positionFallback, h1, h3, hio]

theorem positionFallback_isSome (ds : DataSet)
    (h : (∃ p, ds.imagePositionPatient = some p ∧ 3 ≤ p.length) ∨
      ds.sliceLocation ≠ none) :
    ∃ q, positionFallback ds = some q := by
  unfold positionFallback
  cases hip : ds.imagePositionPatient with
  | none =>
    rcases h with ⟨p, hp, _⟩ | hl
    · rw [hip] at hp; cases hp
    · cases hsl : ds.sliceLocation with
      | none => exact absurd hsl hl
      | some q => exact ⟨q, rfl⟩
  | some p =>
    by_cases hlen : 3 ≤ p.length
    · refine ⟨p.getD 2 0, ?_⟩
      dsimp only
      rw [if_pos hlen]
    · rcases h with ⟨p', hp', hlen'⟩ | hl
      · rw [hip] at hp'
        injection hp' with he
        subst he
        exact absurd hlen' hlen
      · cases hsl : ds.sliceLocation with
        | none => exact absurd hsl hl
        | some q =>
          refine ⟨q, ?_⟩
          dsimp only
          rw [if_neg hlen]

theorem csp_isSome (ds : DataSet)
    (h : (∃ p, ds.imagePositionPatient = some p ∧ 3 ≤ p.length) ∨
      ds.sliceLocation ≠ none) :
    ∃ q, compute_slice_position ds = some q := by
  unfold compute_slice_position
  cases hip : ds.imagePositionPatient with
  | none => exact positionFallback_isSome ds h
  | some p =>
    cases hio : ds.imageOrientationPatient with
    | none => exact positionFallback_isSome ds h
    | some o =>
      by_cases hg : 6 ≤ o.length ∧ 3 ≤ p.length
      · by_cases hn : 0 < normSq (cross3 (vec3 (o.take 3)) (vec3 (o.drop 3)))
        · refine ⟨dot3 (cross3 (vec3 (o.take 3)) (vec3 (o.drop 3))) (vec3 p), ?_⟩
          dsimp only
          rw [if_pos hg, if_pos hn]
        · obtain ⟨q, hq⟩ := positionFallback_isSome ds h
          refine ⟨q, ?_⟩
          dsimp only
          rw [if_pos hg, if_neg hn]
          exact hq
      · obtain ⟨q, hq⟩ := positionFallback_isSome ds h
        refine ⟨q, ?_⟩
        dsimp only
        rw [if_neg hg]
        exact hq

theorem primary_fin_of_usable (r : SliceHeaderRecord)
    (h : (∃ p, r.ds.imagePositionPatient = some p ∧ 3 ≤ p.length) ∨
      r.ds.sliceLocation ≠ none ∨ r.ds.instanceNumber ≠ none) :
    ∃ q, (dicom_sort_key r).primaryPosition = .fin q := by
  rcases h with h | h | h
  · obtain ⟨q, hq⟩ := csp_isSome r.ds (.inl h)
    exact ⟨q, by simp [dicom_sort_key, hq]⟩
  · obtain ⟨q, hq⟩ := csp_isSome r.ds (.inr h)
    exact ⟨q, by simp [dicom_sort_key, hq]⟩
  · cases hcsp : compute_slice_position r.ds with
    | some q => exact ⟨q, by simp [dicom_sort_key, hcsp]⟩
    | none =>
      cases hin : r.ds.instanceNumber with
      | none => exact absurd hin h
      | some i => exact ⟨i, by simp [dicom_sort_key, hcsp, hin]⟩

theorem key_of_empty (r : SliceHeaderRecord)
    (h1 : r.ds.imagePositionPatient = none) (h3 : r.ds.sliceLocation = none)
    (h4 : r.ds.instanceNumber = none) :
    dicom_sort_key r =
      ⟨r.ds.seriesUID.getD [], .inf, .inf, r.fileName.map asciiLower⟩ := by
  have hcsp := compute_slice_position_empty r.ds h1 h3
  simp [dicom_sort_key, hcsp, h4]

/-- Counterexample to C6 as stated: a record with only orientation data
(no position, no slice location, no instance number) "has one of those
fields", yet the fully empty record named `a.dcm` sorts before it, because
orientation without position never contributes to the key; the claimed
"sorts after every record that has any of those fields" fails. -/
theorem degenerate_ordering_counterexample :
    computeOrder
        [⟨⟨none, none, some [1, 0, 0, 0, 1, 0], none, none⟩,
          ['z', '.', 'd', 'c', 'm']⟩,
         ⟨⟨none, none, none, none, none⟩, ['a', '.', 'd', 'c', 'm']⟩] =
      [⟨⟨none, none, none, none, none⟩, ['a', '.', 'd', 'c', 'm']⟩,
       ⟨⟨none, none, some [1, 0, 0, 0, 1, 0], none, none⟩,
        ['z', '.', 'd', 'c', 'm']⟩] ∧
    (⟨⟨none, none, some [1, 0, 0, 0, 1, 0], none, none⟩,
        ['z', '.', 'd', 'c', 'm']⟩ :
      SliceHeaderRecord).ds.imageOrientationPatient ≠ none := by
  exact ⟨by decide, by decide⟩

/-- Claim C6 (amended): within one series, a record with no position, no
orientation, no slice location and no instance number sorts strictly after
every record that has a position with at least 3 components, a slice
location, or a numeric instance number (orientation alone does not affect
the key); and two records whose key-relevant fields are all missing are
ordered solely by their lowercase file names. -/
theorem degenerate_ordering_amended (A B : SliceHeaderRecord)
    (hA1 : A.ds.imagePositionPatient = none)
    (_hA2 : A.ds.imageOrientationPatient = none)
    (hA3 : A.ds.sliceLocation = none)
    (hA4 : A.ds.instanceNumber = none)
    (huid : A.ds.seriesUID = B.ds.seriesUID) :
    ((∃ p, B.ds.imagePositionPatient = some p ∧ 3 ≤ p.length) ∨
        B.ds.sliceLocation ≠ none ∨ B.ds.instanceNumber ≠ none →
      recCmp B A = .lt) ∧
    (B.ds.imagePositionPatient = none → B.ds.sliceLocation = none →
        B.ds.instanceNumber = none →
      (recLe A B ↔
        charsCmp (A.fileName.map asciiLower) (B.fileName.map asciiLower) ≠
          .gt)) := by
  have hAkey := key_of_empty A hA1 hA3 hA4
  constructor
  · intro h
    obtain ⟨q, hq⟩ := primary_fin_of_usable B h
    have huid2 : (dicom_sort_key B).seriesUID = A.ds.seriesUID.getD [] := by
      simp [dicom_sort_key, huid]
    unfold recCmp cmpBy keyCmp compareLex
    rw [hAkey]
    simp only [cmpBy]
    rw [huid2, charsCmp_refl, hq]
    rfl
  · intro hB1 hB3 hB4
    have hBkey := key_of_empty B hB1 hB3 hB4
    unfold recLe recCmp cmpBy keyCmp compareLex
    rw [hAkey, hBkey]
    simp only [cmpBy]
    rw [huid, charsCmp_refl]
    rfl

/-- Witness for the amended C6 at concrete records. -/
theorem degenerate_ordering_amended_witness :
    recCmp ⟨⟨none, none, none, none, some 1⟩, ['z']⟩
        ⟨⟨none, none, none, none, none⟩, ['b']⟩ = .lt ∧
    (recLe ⟨⟨none, none, none, none, none⟩, ['b']⟩
        ⟨⟨none, none, none, none, none⟩, ['c']⟩ ↔
      charsCmp (['b'].map asciiLower) (['c'].map asciiLower) ≠ .gt) :=
  ⟨(degenerate_ordering_amended ⟨⟨none, none, none, none, none⟩, ['b']⟩
      ⟨⟨none, none, none, none, some 1⟩, ['z']⟩ rfl rfl rfl rfl rfl).1
      (Or.inr (Or.inr (by simp))),
   (degenerate_ordering_amended ⟨⟨none, none, none, none, none⟩, ['b']⟩
      ⟨⟨none, none, none, none, none⟩, ['c']⟩ rfl rfl rfl rfl rfl).2 rfl rfl rfl⟩

end DicomViewer
